import Mathlib

/-!
Verification of the reader2pdf concurrent render pipeline (cli.py,
browser_async.py) against its natural-language specification.

The Python source is shallowly embedded: pure helpers become Lean
functions, each awaited engine call is represented by an oracle field
saying whether that call raised, the filesystem is a list of path
strings, and the bounded-concurrency scheduler is a small-step
transition system over worker phases and a semaphore counter.
-/

namespace Reader2Pdf

/-! ### String helpers from `cli.py` -/

/-- Whitespace as Python `str.strip` / regex `\s` sees it (ASCII part). -/
def pyIsSpace (c : Char) : Bool :=
  c = ' ' || c = '\t' || c = '\n' || c = '\r' || c = '\x0b' || c = '\x0c'

/-- Python `s.strip()`: drop whitespace from both ends. -/
def pyStrip (s : String) : String :=
  ⟨(s.data.dropWhile pyIsSpace).reverse.dropWhile pyIsSpace |>.reverse⟩

/-- Characters removed by `re.sub(r'[<>:"/\\|?*]', '', title)` in
`sanitize_filename`. -/
def illegalChar (c : Char) : Bool :=
  c = '<' || c = '>' || c = ':' || c = '"' || c = '/' || c = '\\' ||
  c = '|' || c = '?' || c = '*'

/-- Replace each maximal run of whitespace by a single underscore,
mirroring `re.sub(r'\s+', '_', s)`. -/
def collapseWs : List Char → Bool → List Char
  | [], _ => []
  | c :: cs, inRun =>
    if pyIsSpace c then
      if inRun then collapseWs cs true else '_' :: collapseWs cs true
    else c :: collapseWs cs false

/-- Embedding of `sanitize_filename` from `cli.py`: strip the illegal
characters, collapse whitespace runs of the stripped string to
underscores, truncate to 200 characters, and fall back to "untitled"
when empty. -/
def sanitize_filename (title : String) : String :=
  let step1 : List Char := title.data.filter (fun c => !illegalChar c)
  let stripped : List Char := (pyStrip ⟨step1⟩).data
  let collapsed : List Char := collapseWs stripped false
  let truncated : List Char := collapsed.take 200
  if truncated = [] then "untitled" else ⟨truncated⟩

/-! ### `get_page_title` from `cli.py`

Each awaited Playwright call either succeeds or raises; the oracle below
records those outcomes for one invocation.  `titleVal` is the string the
engine would hand back when `page.title()` succeeds. -/

structure TitleCalls where
  newPageOk : Bool
  gotoOk : Bool
  titleOk : Bool
  closeOk : Bool
  titleVal : String
  deriving DecidableEq, Repr

/-- Embedding of `get_page_title`: the whole body sits in one
`try/except Exception` that returns "untitled", and on success the code
returns `title.strip() if title else "untitled"` (Python truthiness:
the empty string is falsy). -/
def get_page_title (b : TitleCalls) : String :=
  if b.newPageOk && b.gotoOk && b.titleOk && b.closeOk then
    if b.titleVal = "" then "untitled" else pyStrip b.titleVal
  else "untitled"

/-! ### Injectivity of the decimal representation

`cli.py` builds collision suffixes with an f-string, i.e. `Nat.repr` in
the embedding; the collision loop terminates because decimal
representations of distinct numbers are distinct strings.  The round
trip below recovers the number from its digit string. -/

/-- Value of a decimal digit character produced by `Nat.digitChar`. -/
def decDigitVal (c : Char) : Nat :=
  if c = '0' then 0 else
  if c = '1' then 1 else
  if c = '2' then 2 else
  if c = '3' then 3 else
  if c = '4' then 4 else
  if c = '5' then 5 else
  if c = '6' then 6 else
  if c = '7' then 7 else
  if c = '8' then 8 else
  if c = '9' then 9 else 0

/-- Fold a digit string back into a number, most significant digit
first, starting from `acc`. -/
def accDigits (acc : Nat) (l : List Char) : Nat :=
  l.foldl (fun a c => 10 * a + decDigitVal c) acc

theorem decDigitVal_digitChar (m : Nat) (h : m < 10) :
    decDigitVal (Nat.digitChar m) = m := by
  interval_cases m <;> rfl

theorem accDigits_append (acc : Nat) (l1 l2 : List Char) :
    accDigits acc (l1 ++ l2) = accDigits (accDigits acc l1) l2 := by
  simp [accDigits, List.foldl_append]

theorem accDigits_toDigitsCore (fuel : Nat) :
    ∀ n ds, n < 10 ^ fuel →
      accDigits 0 (Nat.toDigitsCore 10 fuel n ds) = accDigits n ds := by
  induction fuel with
  | zero =>
    intro n ds hn
    have hn0 : n = 0 := by omega
    subst hn0
    rfl
  | succ fuel ih =>
    intro n ds hn
    rw [Nat.toDigitsCore]
    by_cases hdiv : n / 10 = 0
    · have hlt : n < 10 := by omega
      simp only [hdiv, if_true]
      have : accDigits 0 (Nat.digitChar (n % 10) :: ds)
          = accDigits (decDigitVal (Nat.digitChar (n % 10))) ds := by
        simp [accDigits]
      rw [this, decDigitVal_digitChar (n % 10) (Nat.mod_lt n (by omega)),
        Nat.mod_eq_of_lt hlt]
    · simp only [hdiv, if_false]
      have hstep : n / 10 < 10 ^ fuel := by
        rw [Nat.div_lt_iff_lt_mul (show 0 < 10 by omega)]
        calc n < 10 ^ (fuel + 1) := hn
        _ = 10 ^ fuel * 10 := by ring
      rw [ih (n / 10) (Nat.digitChar (n % 10) :: ds) hstep]
      have : accDigits (n / 10) (Nat.digitChar (n % 10) :: ds)
          = accDigits (10 * (n / 10) + decDigitVal (Nat.digitChar (n % 10))) ds := by
        simp [accDigits]
      rw [this, decDigitVal_digitChar (n % 10) (Nat.mod_lt n (by omega))]
      rw [Nat.div_add_mod]

theorem accDigits_toDigits (n : Nat) :
    accDigits 0 (Nat.toDigits 10 n) = n := by
  have hlt : n < 10 ^ (n + 1) :=
    lt_of_lt_of_le (Nat.lt_pow_self (by omega) n)
      (Nat.pow_le_pow_right (by omega) (by omega))
  have := accDigits_toDigitsCore (n + 1) n [] hlt
  simpa [accDigits, Nat.toDigits] using this

theorem natRepr_injective : Function.Injective Nat.repr := by
  intro a b h
  have hdata : (Nat.toDigits 10 a) = (Nat.toDigits 10 b) := by
    have : (Nat.repr a).data = (Nat.repr b).data := by rw [h]
    simpa [Nat.repr, List.asString] using this
  have := accDigits_toDigits a
  rw [hdata, accDigits_toDigits b] at this
  exact this.symm

/-! ### Final-name selection from `_worker`

The success path of `_worker` first tries `{safe_title}.pdf` and then
`{safe_title}_{counter}.pdf` for `counter = 1, 2, ...` until the path
does not exist.  `candidate t c` is the name tried at step `c`. -/

def candidate (t : String) : Nat → String
  | 0 => t ++ ".pdf"
  | c + 1 => t ++ "_" ++ Nat.repr (c + 1) ++ ".pdf"

theorem length_append_str (a b : String) :
    (a ++ b).length = a.length + b.length :=
  String.length_append a b

theorem repr_data_eq (n : Nat) : (Nat.repr n).data = Nat.toDigits 10 n := by
  simp [Nat.repr, List.asString]

theorem repr_length_pos (n : Nat) : 0 < (Nat.repr n).length := by
  by_contra hc
  have hnil : (Nat.repr n).data = [] := by
    apply List.length_eq_zero.mp
    have h0 : (Nat.repr n).length = 0 := by omega
    exact h0
  rw [repr_data_eq] at hnil
  have hrt := accDigits_toDigits n
  rw [hnil] at hrt
  simp [accDigits] at hrt
  subst hrt
  exact absurd hnil (by decide)

theorem candidate_injective (t : String) : Function.Injective (candidate t) := by
  intro a b h
  match a, b with
  | 0, 0 => rfl
  | 0, c + 1 =>
    exfalso
    have hl := congrArg String.length h
    simp only [candidate, length_append_str] at hl
    have h1 := repr_length_pos (c + 1)
    have e2 : ("_" : String).length = 1 := rfl
    omega
  | a + 1, 0 =>
    exfalso
    have hl := congrArg String.length h
    simp only [candidate, length_append_str] at hl
    have h1 := repr_length_pos (a + 1)
    have e2 : ("_" : String).length = 1 := rfl
    omega
  | a + 1, b + 1 =>
    have hd := congrArg String.data h
    simp only [candidate, String.data_append, List.append_assoc] at hd
    have h2 := List.append_cancel_left hd
    have h3 := List.append_cancel_left h2
    have h4 := List.append_cancel_right h3
    rw [repr_data_eq, repr_data_eq] at h4
    have h5 := accDigits_toDigits (a + 1)
    rw [h4, accDigits_toDigits] at h5
    omega


/-- Worst-case pigeonhole: among `fs.length + 1` successive candidate
names at least one is not on disk. -/
theorem exists_free_candidate (fs : List String) (t : String) (c : Nat) :
    ∃ j, j ≤ fs.length ∧ candidate t (c + j) ∉ fs := by
  by_contra hall
  push_neg at hall
  have hsub : ∀ x ∈ (List.range (fs.length + 1)).map (fun j => candidate t (c + j)),
      x ∈ fs := by
    intro x hx
    simp only [List.mem_map, List.mem_range] at hx
    obtain ⟨j, hj, rfl⟩ := hx
    exact hall j (by omega)
  have hnd : ((List.range (fs.length + 1)).map (fun j => candidate t (c + j))).Nodup := by
    refine List.Nodup.map ?_ (List.nodup_range _)
    intro x y hxy
    have := candidate_injective t hxy
    omega
  have hcard : ((List.range (fs.length + 1)).map
      (fun j => candidate t (c + j))).toFinset.card ≤ fs.toFinset.card := by
    apply Finset.card_le_card
    intro x hx
    rw [List.mem_toFinset] at hx ⊢
    exact hsub x hx
  rw [List.toFinset_card_of_nodup hnd] at hcard
  have h2 : fs.toFinset.card ≤ fs.length := fs.toFinset_card_le
  simp at hcard
  omega

/-- Embedding of the collision `while` loop: starting from try number
`c`, return the first candidate name not on disk.  The fuel bound is
justified by `exists_free_candidate`. -/
def chooseLoop (fs : List String) (t : String) : Nat → Nat → String
  | c, 0 => candidate t c
  | c, fuel + 1 =>
    if candidate t c ∈ fs then chooseLoop fs t (c + 1) fuel else candidate t c

/-- Final artifact name chosen by `_worker`: `{safe_title}.pdf`, or the
first `{safe_title}_{counter}.pdf` that does not exist. -/
def chooseFinalName (fs : List String) (t : String) : String :=
  chooseLoop fs t 0 (fs.length + 1)

theorem chooseLoop_spec (fs : List String) (t : String) :
    ∀ fuel c, (∃ j, j < fuel + 1 ∧ candidate t (c + j) ∉ fs) →
      ∃ m, chooseLoop fs t c fuel = candidate t (c + m) ∧
        candidate t (c + m) ∉ fs ∧ ∀ j, j < m → candidate t (c + j) ∈ fs := by
  intro fuel
  induction fuel with
  | zero =>
    intro c hex
    obtain ⟨j, hj, hfree⟩ := hex
    have hj0 : j = 0 := by omega
    subst hj0
    exact ⟨0, rfl, hfree, by omega⟩
  | succ fuel ih =>
    intro c hex
    rw [chooseLoop]
    by_cases hc : candidate t c ∈ fs
    · simp only [hc, if_true]
      obtain ⟨j, hj, hfree⟩ := hex
      have hj0 : j ≠ 0 := by
        intro h0
        subst h0
        simp at hfree
        exact hfree hc
      obtain ⟨j2, rfl⟩ : ∃ j2, j = j2 + 1 := ⟨j - 1, by omega⟩
      obtain ⟨m, hm1, hm2, hm3⟩ := ih (c + 1)
        ⟨j2, by omega, by rw [show c + 1 + j2 = c + (j2 + 1) by omega]; exact hfree⟩
      refine ⟨m + 1, ?_, ?_, ?_⟩
      · rw [hm1]; congr 1; omega
      · rw [show c + (m + 1) = c + 1 + m by omega]; exact hm2
      · intro j hjm
        match j with
        | 0 => simpa using hc
        | j + 1 =>
          rw [show c + (j + 1) = c + 1 + j by omega]
          exact hm3 j (by omega)
    · simp only [hc, if_false]
      exact ⟨0, rfl, by simpa using hc, by omega⟩

theorem chooseFinalName_spec (fs : List String) (t : String) :
    ∃ m, chooseFinalName fs t = candidate t m ∧
      candidate t m ∉ fs ∧ ∀ j, j < m → candidate t j ∈ fs := by
  obtain ⟨j, hj, hfree⟩ := exists_free_candidate fs t 0
  obtain ⟨m, h1, h2, h3⟩ := chooseLoop_spec fs t (fs.length + 1) 0
    ⟨j, by omega, hfree⟩
  exact ⟨m, by simpa [chooseFinalName] using h1, by simpa using h2,
    fun j2 hj2 => by simpa using h3 j2 hj2⟩

theorem chooseFinalName_not_mem (fs : List String) (t : String) :
    chooseFinalName fs t ∉ fs := by
  obtain ⟨m, h1, h2, _⟩ := chooseFinalName_spec fs t
  rw [h1]
  exact h2

/-! ### Filesystem model

The on-disk state of the output directory is a list of path strings;
`addFile` is idempotent creation and `removeFile` is `unlink`. -/

def addFile (fs : List String) (p : String) : List String :=
  if p ∈ fs then fs else fs ++ [p]

def removeFile (fs : List String) (p : String) : List String :=
  fs.filter (fun q => q ≠ p)

theorem mem_addFile {fs : List String} {p q : String} :
    q ∈ addFile fs p ↔ q ∈ fs ∨ q = p := by
  unfold addFile
  by_cases h : p ∈ fs
  · simp only [h, if_true]
    constructor
    · exact Or.inl
    · rintro (hq | rfl)
      · exact hq
      · exact h
  · simp [h]

theorem not_mem_removeFile (fs : List String) (p : String) :
    p ∉ removeFile fs p := by
  unfold removeFile
  intro h
  have := List.of_mem_filter h
  simp at this

theorem mem_removeFile {fs : List String} {p q : String} :
    q ∈ removeFile fs p ↔ q ∈ fs ∧ q ≠ p := by
  unfold removeFile
  simp

theorem removeFile_addFile (fs : List String) (p : String) :
    removeFile (addFile fs p) p = removeFile fs p := by
  unfold addFile removeFile
  by_cases h : p ∈ fs
  · simp [h]
  · simp [h, List.filter_append]

theorem removeFile_idem (fs : List String) (p : String) :
    removeFile (removeFile fs p) p = removeFile fs p := by
  unfold removeFile
  rw [List.filter_filter]
  congr 1
  funext a
  simp

/-! ### The `_worker` retry loop from `cli.py`

One attempt of `_worker` either succeeds (the `try` block runs to the
`return` after putting the ok event) or raises somewhere inside it.  The
oracle `AttemptSpec` describes attempt number `k` (1-based, as the
`attempt` variable after its increment): whether the attempt as a whole
succeeds, whether a failed attempt left a partially written temporary
file on disk, the outcomes of the `get_page_title` page visit on the
success path, and the exception text of a failed attempt. -/

structure AttemptSpec where
  renderOk : Bool
  tempLeft : Bool
  titleCalls : TitleCalls
  err : String
  deriving Repr

inductive EvStatus where
  | ok
  | fail
  deriving DecidableEq, Repr

/-- One entry put on the event queue: status, url, detail (final file
name on success, exception text on failure). -/
structure TEvent where
  status : EvStatus
  url : String
  detail : String
  deriving DecidableEq, Repr

/-- Result of one `_worker` coroutine: the terminal events it put on the
queue, the backoff sleep durations it awaited (in order), and the final
filesystem state. -/
structure WorkerResult where
  events : List TEvent
  sleeps : List Nat
  fs : List String
  deriving Repr

/-- Embedding of the body of `_worker`, starting at the top of the
`while True:` loop with `attempt` incremented next.  The success branch
renders to the temporary path, reads and sanitizes the title, picks the
first free candidate name, renames the temporary file onto it, and puts
one ok event.  The failure branch unlinks the temporary file if present
and either backs off `min(2 * attempt, 5)` and loops, or puts one fail
event. -/
def workerLoop (url temp : String) (retries : Nat) (spec : Nat → AttemptSpec)
    (fs : List String) (attempt : Nat) : WorkerResult :=
  if (spec (attempt + 1)).renderOk then
    let fs1 := addFile fs temp
    let t := sanitize_filename (get_page_title (spec (attempt + 1)).titleCalls)
    let final := chooseFinalName fs1 t
    let fs2 := addFile (removeFile fs1 temp) final
    ⟨[⟨EvStatus.ok, url, final⟩], [], fs2⟩
  else
    let fs1 := if (spec (attempt + 1)).tempLeft then addFile fs temp else fs
    let fs2 := removeFile fs1 temp
    if h : attempt + 1 ≤ retries + 1 then
      let r := workerLoop url temp retries spec fs2 (attempt + 1)
      ⟨r.events, min (2 * (attempt + 1)) 5 :: r.sleeps, r.fs⟩
    else
      ⟨[⟨EvStatus.fail, url, (spec (attempt + 1)).err⟩], [], fs2⟩
termination_by retries + 2 - attempt
decreasing_by omega

/-- Embedding of `_worker` from its entry point (`attempt = 0`). -/
def worker (url temp : String) (retries : Nat) (spec : Nat → AttemptSpec)
    (fs : List String) : WorkerResult :=
  workerLoop url temp retries spec fs 0

theorem workerLoop_events_length (url temp : String) (retries : Nat)
    (spec : Nat → AttemptSpec) (fs : List String) (attempt : Nat) :
    (workerLoop url temp retries spec fs attempt).events.length = 1 := by
  induction fs, attempt using workerLoop.induct url temp retries spec with
  | case1 fs attempt hok => rw [workerLoop]; simp [hok]
  | case2 fs attempt hok fs1 fs2 hle ih =>
    rw [workerLoop]
    simp only [hok, if_false, Bool.false_eq_true, hle, dif_pos]
    exact ih
  | case3 fs attempt hok hle =>
    rw [workerLoop]
    simp [hok, hle]

theorem worker_events_length (url temp : String) (retries : Nat)
    (spec : Nat → AttemptSpec) (fs : List String) :
    (worker url temp retries spec fs).events.length = 1 :=
  workerLoop_events_length url temp retries spec fs 0

/-! ### Run-level event accounting from `_run_async` -/

/-- Split a character list at newline characters. -/
def splitLines (l : List Char) : List (List Char) :=
  match l with
  | [] => [[]]
  | c :: cs =>
    if c = '\n' then [] :: splitLines cs
    else
      match splitLines cs with
      | [] => [[c]]
      | h :: t => (c :: h) :: t

/-- Modelled from the spec: `read_url_lines` is imported from
`src/reader2pdf/utils.py`, which is not among the sources; the spec
says the input is a newline-delimited list of addresses in which blank
lines and comment lines are ignored.  A comment line is one whose
first character is `#`. -/
def read_url_lines (text : String) : List String :=
  (((splitLines text.data).map (fun l => pyStrip ⟨l⟩)).filter
    (fun l => l ≠ "" && !(l.data.head? = some '#')))

/-- Events all workers put on the shared queue, concatenated per worker.
`_run_async` launches one `_worker` per element of `urls`.  The queue
interleaving is schedule-dependent but the multiset of events is not,
so the claims below only use counts and statuses, which are
interleaving-invariant.  Worker `i` gets its own oracle, temporary path
and filesystem view. -/
def runEvents (urls : List String) (retries : Nat)
    (tempOf : Nat → String) (specOf : Nat → Nat → AttemptSpec)
    (fsOf : Nat → List String) : List TEvent :=
  ((List.range urls.length).map
    (fun i => (worker (urls.getD i "") (tempOf i) retries (specOf i) (fsOf i)).events)).flatten

/-! ### The bounded-concurrency scheduler as a transition system

`_run_async` creates `asyncio.Semaphore(max(1, max_concurrency))`; each
worker repeatedly does `async with sem:` around one attempt, whose
failure branch sleeps the backoff inside the `with` block.  Phases of a
worker, with `k` the 1-based attempt number:

* `ready k`   - at the top of the loop, before `async with sem` for
  attempt `k`;
* `running k` - inside the semaphore, executing the stages of attempt
  `k`;
* `sleeping k` - inside the semaphore, in the backoff sleep after a
  failed attempt `k`;
* `done`      - returned (after the ok or fail event). -/

inductive Phase where
  | ready (k : Nat)
  | running (k : Nat)
  | sleeping (k : Nat)
  | done
  deriving DecidableEq, Repr

structure SchedState where
  workers : List Phase
  sem : Nat
  deriving DecidableEq, Repr

/-- Effective semaphore size from line 152 of `cli.py`:
`asyncio.Semaphore(max(1, max_concurrency))`. -/
def effConc (mc : Int) : Nat := (max 1 mc).toNat

/-- Initial state of a run: every worker is about to start attempt 1
and no permit is taken. -/
def initState (mc : Int) (n : Nat) : SchedState :=
  ⟨List.replicate n (Phase.ready 1), effConc mc⟩

/-- Worker `ph` currently occupies a concurrency slot (it is past the
admission point, inside the semaphore-guarded region). -/
def holdsPermit : Phase → Bool
  | Phase.running _ => true
  | Phase.sleeping _ => true
  | _ => false

/-- Number of workers past the admission point. -/
def heldCount (s : SchedState) : Nat :=
  s.workers.countP holdsPermit

/-- Small-step semantics of the cooperative scheduler, with retry limit
`R`.  Suspension points: semaphore acquisition, the stages of an
attempt, and the backoff sleep. -/
inductive SchedStep (R : Nat) : SchedState → SchedState → Prop where
  | acquire (l r : List Phase) (k s : Nat) :
      SchedStep R ⟨l ++ Phase.ready k :: r, s + 1⟩
        ⟨l ++ Phase.running k :: r, s⟩
  | succeed (l r : List Phase) (k s : Nat) :
      SchedStep R ⟨l ++ Phase.running k :: r, s⟩
        ⟨l ++ Phase.done :: r, s + 1⟩
  | failRetry (l r : List Phase) (k s : Nat) (hk : k ≤ R + 1) :
      SchedStep R ⟨l ++ Phase.running k :: r, s⟩
        ⟨l ++ Phase.sleeping k :: r, s⟩
  | wake (l r : List Phase) (k s : Nat) :
      SchedStep R ⟨l ++ Phase.sleeping k :: r, s⟩
        ⟨l ++ Phase.ready (k + 1) :: r, s + 1⟩
  | failFinal (l r : List Phase) (k s : Nat) (hk : R + 1 < k) :
      SchedStep R ⟨l ++ Phase.running k :: r, s⟩
        ⟨l ++ Phase.done :: r, s + 1⟩

/-- States reachable from `init` by scheduler steps. -/
inductive SchedReach (R : Nat) (init : SchedState) : SchedState → Prop where
  | refl : SchedReach R init init
  | tail {s s2 : SchedState} :
      SchedReach R init s → SchedStep R s s2 → SchedReach R init s2

theorem heldCount_append (l r : List Phase) (ph : Phase) (s : Nat) :
    heldCount ⟨l ++ ph :: r, s⟩
      = l.countP holdsPermit + (if holdsPermit ph then 1 else 0)
        + r.countP holdsPermit := by
  unfold heldCount
  simp only [List.countP_append, List.countP_cons]
  by_cases h : holdsPermit ph
  · simp [h]
    omega
  · simp [h]

/-- Permit accounting invariant: occupied slots plus free permits equal
the semaphore size. -/
theorem sched_invariant (R : Nat) (mc : Int) (n : Nat) (s : SchedState)
    (hr : SchedReach R (initState mc n) s) :
    heldCount s + s.sem = effConc mc := by
  induction hr with
  | refl =>
    unfold heldCount initState
    have hz : (List.replicate n (Phase.ready 1)).countP holdsPermit = 0 := by
      apply List.countP_eq_zero.mpr
      intro ph hph
      have := List.eq_of_mem_replicate hph
      subst this
      simp [holdsPermit]
    simp [hz]
  | tail hreach hstep ih =>
    cases hstep with
    | acquire l r k s =>
      rw [heldCount_append] at ih ⊢
      simp [holdsPermit] at ih ⊢
      omega
    | succeed l r k s =>
      rw [heldCount_append] at ih ⊢
      simp [holdsPermit] at ih ⊢
      omega
    | failRetry l r k s hk =>
      rw [heldCount_append] at ih ⊢
      simp [holdsPermit] at ih ⊢
      omega
    | wake l r k s =>
      rw [heldCount_append] at ih ⊢
      simp [holdsPermit] at ih ⊢
      omega
    | failFinal l r k s hk =>
      rw [heldCount_append] at ih ⊢
      simp [holdsPermit] at ih ⊢
      omega

/-! ### The render pipeline from `browser_async.py`

Each awaited engine call either succeeds or raises; `wait_for_load_state`
additionally distinguishes the `PWTimeoutError` that the code catches
and ignores from other errors, which propagate. -/

inductive WaitRes where
  | done
  | timeout
  | err
  deriving DecidableEq, Repr

/-- Structured result of `Readability(doc).parse()` as `cli` consumes
it: a dict with nullable `title` and `content` fields, or `null`. -/
structure Article where
  title : Option String
  content : Option String
  deriving DecidableEq, Repr

/-- Oracle for the source-page half of `render_url_to_pdf_async`
(`ctx.new_page()` plus `_read_source_html`). -/
structure SourceCalls where
  newPageOk : Bool
  gotoOk : Bool
  idle : WaitRes
  contentOk : Bool
  html : String
  deriving DecidableEq, Repr

/-- Oracle for `_readerize_in_sandbox` and the final `proc.pdf` call.
`parseResult` is the outcome of `rd.parse()` inside the injected
script: an exception (caught by the in-page `try/catch`, which returns
`null`) or an article-or-null value.  `evalOk` is the engine-level
outcome of the `evaluate` call itself. -/
structure SandboxCalls where
  newPageOk : Bool
  setBlankOk : Bool
  addScriptOk : Bool
  evalOk : Bool
  parseResult : Except String (Option Article)
  setCleanOk : Bool
  evalImagesOk : Bool
  idle : WaitRes
  pdfOk : Bool
  deriving Repr

/-- Value the injected script hands back to Python: the in-page
`try/catch` downgrades a throwing `rd.parse()` to `null`. -/
def bridgeValue (sb : SandboxCalls) : Option Article :=
  match sb.parseResult with
  | Except.error _ => none
  | Except.ok v => v

/-- Truthiness of `article and article.get("content")` in Python: the
article is non-null and its content is a non-empty string. -/
def truthyContent (a : Option Article) : Option String :=
  match a with
  | none => none
  | some art =>
    match art.content with
    | none => none
    | some c => if c = "" then none else some c

/-- Embedding of `_read_source_html`, run against an already opened
source page: `goto` (may raise), a `networkidle` wait whose timeout is
caught and ignored, then `content()`. -/
def read_source_html (c : SourceCalls) : Except String String :=
  if !c.gotoOk then Except.error "goto" else
  match c.idle with
  | WaitRes.err => Except.error "wait_for_load_state"
  | _ =>
    if !c.contentOk then Except.error "content" else Except.ok c.html

/-- Outcome of `_readerize_in_sandbox`: overall result, whether the
sandbox page handle is open when the call returns or raises, and
whether the printable article document was installed (as opposed to the
blank fallback). -/
structure ReaderizeOut where
  result : Except String Unit
  procOpen : Bool
  isArticle : Bool
  deriving Repr

/-- Embedding of `_readerize_in_sandbox`.  The function has no
`try/finally` of its own: any raise after `ctx.new_page()` succeeded
propagates with the sandbox page still open. -/
def readerize_in_sandbox (sb : SandboxCalls) : ReaderizeOut :=
  if !sb.newPageOk then ⟨Except.error "new_page", false, false⟩ else
  if !sb.setBlankOk then ⟨Except.error "set_content", true, false⟩ else
  if !sb.addScriptOk then ⟨Except.error "add_script_tag", true, false⟩ else
  if !sb.evalOk then ⟨Except.error "evaluate", true, false⟩ else
  match truthyContent (bridgeValue sb) with
  | none => ⟨Except.ok (), true, false⟩
  | some _ =>
    if !sb.setCleanOk then ⟨Except.error "set_content", true, true⟩ else
    if !sb.evalImagesOk then ⟨Except.error "evaluate", true, true⟩ else
    match sb.idle with
    | WaitRes.err => ⟨Except.error "wait_for_load_state", true, true⟩
    | _ => ⟨Except.ok (), true, true⟩

/-- Outcome of `render_url_to_pdf_async`: overall result, page handles
still open when it returns or raises, whether the temporary artifact
was written, and whether what was printed was the blank fallback
document. -/
structure RenderOut where
  result : Except String Unit
  srcOpen : Bool
  procOpen : Bool
  pdfWritten : Bool
  printedEmpty : Bool
  deriving Repr

/-- Embedding of `render_url_to_pdf_async`: open the source page, read
its markup under `try/finally src.close()`, prepare the sandbox page,
print it to PDF under `try/finally proc.close()`. -/
def render_url_to_pdf_async (src : SourceCalls) (sb : SandboxCalls) : RenderOut :=
  if !src.newPageOk then ⟨Except.error "new_page", false, false, false, false⟩ else
  match read_source_html src with
  | Except.error e => ⟨Except.error e, false, false, false, false⟩
  | Except.ok _ =>
    let ro := readerize_in_sandbox sb
    match ro.result with
    | Except.error e => ⟨Except.error e, false, ro.procOpen, false, false⟩
    | Except.ok _ =>
      if !sb.pdfOk then ⟨Except.error "pdf", false, false, false, false⟩
      else ⟨Except.ok (), false, false, true, !ro.isArticle⟩

/-! ### Helper lemmas about the worker loop -/

theorem workerLoop_success_step (url temp : String) (retries : Nat)
    (spec : Nat → AttemptSpec) (fs : List String) (attempt : Nat)
    (hsucc : (spec (attempt + 1)).renderOk = true) :
    workerLoop url temp retries spec fs attempt =
      ⟨[⟨EvStatus.ok, url,
          chooseFinalName (addFile fs temp)
            (sanitize_filename (get_page_title (spec (attempt + 1)).titleCalls))⟩],
       [],
       addFile (removeFile (addFile fs temp) temp)
         (chooseFinalName (addFile fs temp)
           (sanitize_filename (get_page_title (spec (attempt + 1)).titleCalls)))⟩ := by
  rw [workerLoop]
  simp [hsucc]

theorem workerLoop_retry_step (url temp : String) (retries : Nat)
    (spec : Nat → AttemptSpec) (fs : List String) (attempt : Nat)
    (hfail : (spec (attempt + 1)).renderOk = false)
    (hle : attempt + 1 ≤ retries + 1) :
    workerLoop url temp retries spec fs attempt =
      ⟨(workerLoop url temp retries spec (removeFile fs temp) (attempt + 1)).events,
       min (2 * (attempt + 1)) 5 ::
         (workerLoop url temp retries spec (removeFile fs temp) (attempt + 1)).sleeps,
       (workerLoop url temp retries spec (removeFile fs temp) (attempt + 1)).fs⟩ := by
  rw [workerLoop]
  simp only [hfail, Bool.false_eq_true, if_false, hle, dif_pos]
  by_cases ht : (spec (attempt + 1)).tempLeft
  · simp [ht, removeFile_addFile]
  · simp [ht]

theorem workerLoop_fail_step (url temp : String) (retries : Nat)
    (spec : Nat → AttemptSpec) (fs : List String) (attempt : Nat)
    (hfail : (spec (attempt + 1)).renderOk = false)
    (hgt : retries + 1 < attempt + 1) :
    workerLoop url temp retries spec fs attempt =
      ⟨[⟨EvStatus.fail, url, (spec (attempt + 1)).err⟩], [],
        removeFile fs temp⟩ := by
  rw [workerLoop]
  simp only [hfail, Bool.false_eq_true, if_false]
  rw [dif_neg (by omega)]
  by_cases ht : (spec (attempt + 1)).tempLeft
  · simp [ht, removeFile_addFile]
  · simp [ht]

theorem workerLoop_all_fail (url temp : String) (retries : Nat)
    (spec : Nat → AttemptSpec) :
    ∀ d p fs, retries + 1 = p + d →
      (∀ k, p < k → k ≤ retries + 2 → (spec k).renderOk = false) →
      (workerLoop url temp retries spec fs p).events
          = [⟨EvStatus.fail, url, (spec (retries + 2)).err⟩] ∧
        (workerLoop url temp retries spec fs p).fs = removeFile fs temp := by
  intro d
  induction d with
  | zero =>
    intro p fs hp hfail
    have hp2 : p = retries + 1 := by omega
    subst hp2
    rw [workerLoop_fail_step url temp retries spec fs (retries + 1)
      (hfail (retries + 2) (by omega) (by omega)) (by omega)]
    exact ⟨rfl, rfl⟩
  | succ d ih =>
    intro p fs hp hfail
    rw [workerLoop_retry_step url temp retries spec fs p
      (hfail (p + 1) (by omega) (by omega)) (by omega)]
    have := ih (p + 1) (removeFile fs temp) (by omega)
      (fun k hk1 hk2 => hfail k (by omega) hk2)
    simp only
    exact ⟨this.1, by rw [this.2, removeFile_idem]⟩

theorem workerLoop_sleeps_all_fail (url temp : String) (retries : Nat)
    (spec : Nat → AttemptSpec) :
    ∀ d p fs, retries + 1 = p + d →
      (∀ k, p < k → k ≤ retries + 2 → (spec k).renderOk = false) →
      (workerLoop url temp retries spec fs p).sleeps
        = (List.range' (p + 1) d).map (fun a => min (2 * a) 5) := by
  intro d
  induction d with
  | zero =>
    intro p fs hp hfail
    have hp2 : p = retries + 1 := by omega
    subst hp2
    rw [workerLoop_fail_step url temp retries spec fs (retries + 1)
      (hfail (retries + 2) (by omega) (by omega)) (by omega)]
    rfl
  | succ d ih =>
    intro p fs hp hfail
    rw [workerLoop_retry_step url temp retries spec fs p
      (hfail (p + 1) (by omega) (by omega)) (by omega)]
    have := ih (p + 1) (removeFile fs temp) (by omega)
      (fun k hk1 hk2 => hfail k (by omega) hk2)
    simp only [this, List.range'_succ]
    rfl

theorem workerLoop_first_success (url temp : String) (retries : Nat)
    (spec : Nat → AttemptSpec) (k : Nat) (hk1 : 1 ≤ k) (hk2 : k ≤ retries + 2)
    (hsucc : (spec k).renderOk = true)
    (hfail : ∀ j, 1 ≤ j → j < k → (spec j).renderOk = false) :
    ∀ d p fs, k = p + 1 + d →
      (workerLoop url temp retries spec fs p).events
          = [⟨EvStatus.ok, url,
              chooseFinalName
                (addFile (if d = 0 then fs else removeFile fs temp) temp)
                (sanitize_filename (get_page_title (spec k).titleCalls))⟩] ∧
        (workerLoop url temp retries spec fs p).fs
          = (let fs1 := addFile (if d = 0 then fs else removeFile fs temp) temp
             addFile (removeFile fs1 temp)
               (chooseFinalName fs1
                 (sanitize_filename (get_page_title (spec k).titleCalls)))) := by
  intro d
  induction d with
  | zero =>
    intro p fs hp
    have hp2 : k = p + 1 := by omega
    subst hp2
    rw [workerLoop_success_step url temp retries spec fs p hsucc]
    exact ⟨rfl, rfl⟩
  | succ d ih =>
    intro p fs hp
    have hfp : (spec (p + 1)).renderOk = false :=
      hfail (p + 1) (by omega) (by omega)
    rw [workerLoop_retry_step url temp retries spec fs p hfp (by omega)]
    have := ih (p + 1) (removeFile fs temp) (by omega)
    simp only
    rcases this with ⟨h1, h2⟩
    constructor
    · rw [h1]
      by_cases hd : d = 0
      · simp [hd]
      · simp [hd, removeFile_idem]
    · rw [h2]
      by_cases hd : d = 0
      · simp [hd]
      · simp [hd, removeFile_idem]

/-! ### Concrete fixtures used by counterexamples and witnesses -/

def okTitleCalls : TitleCalls := ⟨true, true, true, true, "Report"⟩

def specAlwaysOk : AttemptSpec := ⟨true, false, okTitleCalls, "boom"⟩

def specAlwaysFail : AttemptSpec := ⟨false, true, okTitleCalls, "boom"⟩

theorem sum_map_ones {α : Type} (l : List α) (f : α → Nat)
    (h : ∀ x ∈ l, f x = 1) : (l.map f).sum = l.length := by
  induction l with
  | nil => rfl
  | cons a l ih =>
    simp only [List.map_cons, List.sum_cons, List.length_cons,
      h a (by simp)]
    rw [ih (fun x hx => h x (by simp [hx]))]
    omega

theorem runEvents_length (urls : List String) (retries : Nat)
    (tempOf : Nat → String) (specOf : Nat → Nat → AttemptSpec)
    (fsOf : Nat → List String) :
    (runEvents urls retries tempOf specOf fsOf).length = urls.length := by
  unfold runEvents
  rw [List.length_flatten, List.map_map]
  have := sum_map_ones (List.range urls.length)
    (fun i => (worker (urls.getD i "") (tempOf i) retries (specOf i) (fsOf i)).events.length)
    (fun i _ => worker_events_length (urls.getD i "") (tempOf i) retries (specOf i) (fsOf i))
  simpa [Function.comp] using this

/-! ### Claims -/

/-- C1, counterexample: submitting the same address twice (a legal
input file: two identical non-blank, non-comment lines) produces two
terminal events, while only one distinct address was submitted, so
`count(TerminalEvent) == count(distinct Address submitted)` fails. -/
theorem C1_counterexample :
    read_url_lines "http://a\nhttp://a\n# comment\n" = ["http://a", "http://a"] ∧
    (runEvents (read_url_lines "http://a\nhttp://a\n# comment\n") 1
        (fun _ => "temp_a.pdf") (fun _ _ => specAlwaysOk) (fun _ => [])).length = 2 ∧
    (read_url_lines "http://a\nhttp://a\n# comment\n").dedup.length = 1 ∧
    (2 : Nat) ≠ 1 := by
  have h := runEvents_length (read_url_lines "http://a\nhttp://a\n# comment\n") 1
    (fun _ => "temp_a.pdf") (fun _ _ => specAlwaysOk) (fun _ => [])
  have hu : read_url_lines "http://a\nhttp://a\n# comment\n" = ["http://a", "http://a"] := by
    decide
  refine ⟨hu, ?_, by decide, by decide⟩
  rw [h, hu]
  rfl

/-- C1, amended: for every run, exactly one TerminalEvent is put on the
event queue per submitted address occurrence, regardless of attempts,
and each event carries outcome ok or fail; the count equals the number
of distinct submitted addresses exactly when the submitted list has no
duplicates. -/
theorem C1_one_event_per_submitted_address (urls : List String) (retries : Nat)
    (tempOf : Nat → String) (specOf : Nat → Nat → AttemptSpec)
    (fsOf : Nat → List String) :
    (runEvents urls retries tempOf specOf fsOf).length = urls.length ∧
    (∀ e ∈ runEvents urls retries tempOf specOf fsOf,
      e.status = EvStatus.ok ∨ e.status = EvStatus.fail) ∧
    (urls.Nodup →
      (runEvents urls retries tempOf specOf fsOf).length = urls.dedup.length) := by
  refine ⟨runEvents_length urls retries tempOf specOf fsOf, ?_, ?_⟩
  · intro e _
    cases h : e.status
    · exact Or.inl rfl
    · exact Or.inr rfl
  · intro hnd
    rw [List.dedup_eq_self.mpr hnd]
    exact runEvents_length urls retries tempOf specOf fsOf

theorem C1_witness :
    (["u1", "u2"] : List String).Nodup ∧
    (runEvents ["u1", "u2"] 0 (fun _ => "t.pdf") (fun _ _ => specAlwaysOk)
      (fun _ => [])).length = (["u1", "u2"] : List String).dedup.length :=
  ⟨by decide,
    (C1_one_event_per_submitted_address ["u1", "u2"] 0 (fun _ => "t.pdf")
      (fun _ _ => specAlwaysOk) (fun _ => [])).2.2 (by decide)⟩

theorem workerLoop_sleeps_first_success (url temp : String) (retries : Nat)
    (spec : Nat → AttemptSpec) (k : Nat) (hk2 : k ≤ retries + 2)
    (hsucc : (spec k).renderOk = true)
    (hfail : ∀ j, 1 ≤ j → j < k → (spec j).renderOk = false) :
    ∀ d p fs, k = p + 1 + d →
      (workerLoop url temp retries spec fs p).sleeps
        = (List.range' (p + 1) d).map (fun a => min (2 * a) 5) := by
  intro d
  induction d with
  | zero =>
    intro p fs hp
    have hp2 : k = p + 1 := by omega
    subst hp2
    rw [workerLoop_success_step url temp retries spec fs p hsucc]
    rfl
  | succ d ih =>
    intro p fs hp
    have hfp : (spec (p + 1)).renderOk = false :=
      hfail (p + 1) (by omega) (by omega)
    rw [workerLoop_retry_step url temp retries spec fs p hfp (by omega)]
    have := ih (p + 1) (removeFile fs temp) (by omega)
    simp only [this, List.range'_succ]
    rfl

/-- C2: a task whose first `R` attempts fail and whose `(R+1)`-th
attempt succeeds emits exactly one ok TerminalEvent and performs
exactly `R` backoff sleeps, the `k`-th lasting `min(2*k, 5)`; moreover
(general clauses) a failed attempt with attempt number `<= R+1` sleeps
`min(2*attempt, 5)` and re-enters the loop with the attempt number
incremented, while a failed attempt past that bound puts one fail event
and performs no sleep and no further attempt. -/
theorem C2_retry_backoff_schedule (url temp : String) (R : Nat)
    (spec : Nat → AttemptSpec) (fs : List String)
    (hfail : ∀ k, 1 ≤ k → k ≤ R → (spec k).renderOk = false)
    (hsucc : (spec (R + 1)).renderOk = true) :
    (∃ name, (worker url temp R spec fs).events = [⟨EvStatus.ok, url, name⟩]) ∧
    (worker url temp R spec fs).sleeps
      = (List.range R).map (fun j => min (2 * (j + 1)) 5) ∧
    (worker url temp R spec fs).sleeps.length = R ∧
    (∀ fsx attempt, (spec (attempt + 1)).renderOk = false →
      attempt + 1 ≤ R + 1 →
      (workerLoop url temp R spec fsx attempt).sleeps
          = min (2 * (attempt + 1)) 5 ::
            (workerLoop url temp R spec (removeFile fsx temp) (attempt + 1)).sleeps ∧
      (workerLoop url temp R spec fsx attempt).events
          = (workerLoop url temp R spec (removeFile fsx temp) (attempt + 1)).events) ∧
    (∀ fsx attempt, (spec (attempt + 1)).renderOk = false →
      R + 1 < attempt + 1 →
      (workerLoop url temp R spec fsx attempt).events
          = [⟨EvStatus.fail, url, (spec (attempt + 1)).err⟩] ∧
      (workerLoop url temp R spec fsx attempt).sleeps = []) := by
  have hfail2 : ∀ j, 1 ≤ j → j < R + 1 → (spec j).renderOk = false :=
    fun j h1 h2 => hfail j h1 (by omega)
  refine ⟨?_, ?_, ?_, ?_, ?_⟩
  · have := workerLoop_first_success url temp R spec (R + 1) (by omega) (by omega)
      hsucc hfail2 R 0 fs (by omega)
    exact ⟨_, this.1⟩
  · have := workerLoop_sleeps_first_success url temp R spec (R + 1) (by omega)
      hsucc hfail2 R 0 fs (by omega)
    rw [worker, this, List.range'_eq_map_range, List.map_map]
    have hfun : ((fun a => min (2 * a) 5) ∘ (fun j => 1 + j))
        = fun j => min (2 * (j + 1)) 5 := by
      funext j
      simp [Function.comp, Nat.add_comm]
    rw [hfun]
  · have := workerLoop_sleeps_first_success url temp R spec (R + 1) (by omega)
      hsucc hfail2 R 0 fs (by omega)
    rw [worker, this]
    simp
  · intro fsx attempt h1 h2
    rw [workerLoop_retry_step url temp R spec fsx attempt h1 h2]
    exact ⟨rfl, rfl⟩
  · intro fsx attempt h1 h2
    rw [workerLoop_fail_step url temp R spec fsx attempt h1 h2]
    exact ⟨rfl, rfl⟩

theorem C2_witness :
    (∀ k, 1 ≤ k → k ≤ 2 → ((fun j => if j ≤ 2 then specAlwaysFail else specAlwaysOk) k).renderOk = false) ∧
    (((fun j => if j ≤ 2 then specAlwaysFail else specAlwaysOk) 3).renderOk = true) ∧
    (worker "u" "t.pdf" 2 (fun j => if j ≤ 2 then specAlwaysFail else specAlwaysOk) []).sleeps
      = (List.range 2).map (fun j => min (2 * (j + 1)) 5) := by
  refine ⟨?_, by decide, ?_⟩
  · intro k h1 h2
    interval_cases k <;> decide
  · exact (C2_retry_backoff_schedule "u" "t.pdf" 2
      (fun j => if j ≤ 2 then specAlwaysFail else specAlwaysOk) []
      (fun k h1 h2 => by interval_cases k <;> decide) (by decide)).2.1

/-- C6: a task that reaches terminal failure after retry exhaustion
leaves no artifact: the final filesystem state is the initial one with
the temporary path unlinked, the temporary artifact is gone, no path
was created, and the single emitted event is the fail event of the
last attempt. -/
theorem C6_terminal_failure_no_artifact (url temp : String) (R : Nat)
    (spec : Nat → AttemptSpec) (fs : List String)
    (hfail : ∀ k, 1 ≤ k → k ≤ R + 2 → (spec k).renderOk = false) :
    (worker url temp R spec fs).events
        = [⟨EvStatus.fail, url, (spec (R + 2)).err⟩] ∧
    (worker url temp R spec fs).fs = removeFile fs temp ∧
    temp ∉ (worker url temp R spec fs).fs ∧
    ∀ q ∈ (worker url temp R spec fs).fs, q ∈ fs := by
  have h := workerLoop_all_fail url temp R spec (R + 1) 0 fs (by omega)
    (fun k hk1 hk2 => hfail k (by omega) hk2)
  refine ⟨h.1, h.2, ?_, ?_⟩
  · rw [worker, h.2]
    exact not_mem_removeFile fs temp
  · intro q hq
    rw [worker, h.2] at hq
    exact (mem_removeFile.mp hq).1

theorem C6_witness :
    (∀ k, 1 ≤ k → k ≤ 3 → ((fun _ => specAlwaysFail) k).renderOk = false) ∧
    (worker "u" "t.pdf" 1 (fun _ => specAlwaysFail) ["keep.pdf"]).events
      = [⟨EvStatus.fail, "u", "boom"⟩] ∧
    "t.pdf" ∉ (worker "u" "t.pdf" 1 (fun _ => specAlwaysFail) ["keep.pdf"]).fs := by
  have h := C6_terminal_failure_no_artifact "u" "t.pdf" 1 (fun _ => specAlwaysFail)
    ["keep.pdf"] (fun k _ _ => rfl)
  exact ⟨fun k _ _ => rfl, h.1, h.2.2.1⟩

/-- C7: a task whose first success is attempt `k` (earlier attempts
failed) emits one ok event carrying the chosen final name; that name
was free on disk when chosen (so the rename creates it, and exactly one
artifact exists under it afterwards), the temporary artifact is gone,
and the name is the first free entry of the candidate sequence
`title.pdf, title_1.pdf, title_2.pdf, ...` for the sanitized title. -/
theorem C7_success_unique_artifact (url temp : String) (R : Nat)
    (spec : Nat → AttemptSpec) (fs : List String) (k : Nat)
    (hk1 : 1 ≤ k) (hk2 : k ≤ R + 2)
    (hsucc : (spec k).renderOk = true)
    (hfail : ∀ j, 1 ≤ j → j < k → (spec j).renderOk = false) :
    ∃ final,
      final = chooseFinalName
          (addFile (if k = 1 then fs else removeFile fs temp) temp)
          (sanitize_filename (get_page_title (spec k).titleCalls)) ∧
      (worker url temp R spec fs).events = [⟨EvStatus.ok, url, final⟩] ∧
      final ∉ addFile (if k = 1 then fs else removeFile fs temp) temp ∧
      (worker url temp R spec fs).fs.count final = 1 ∧
      temp ∉ (worker url temp R spec fs).fs ∧
      (∃ m, final = candidate
          (sanitize_filename (get_page_title (spec k).titleCalls)) m ∧
        ∀ j, j < m →
          candidate (sanitize_filename (get_page_title (spec k).titleCalls)) j
            ∈ addFile (if k = 1 then fs else removeFile fs temp) temp) := by
  obtain ⟨d, hd⟩ : ∃ d, k = 0 + 1 + d := ⟨k - 1, by omega⟩
  have h := workerLoop_first_success url temp R spec k hk1 hk2 hsucc hfail d 0 fs hd
  have hbase : (if d = 0 then fs else removeFile fs temp)
      = (if k = 1 then fs else removeFile fs temp) := by
    by_cases h0 : d = 0
    · rw [if_pos h0, if_pos (by omega)]
    · rw [if_neg h0, if_neg (by omega)]
  rw [hbase] at h
  set fsb := if k = 1 then fs else removeFile fs temp with hfsb
  set t := sanitize_filename (get_page_title (spec k).titleCalls) with ht
  set fs1 := addFile fsb temp with hfs1
  set final := chooseFinalName fs1 t with hfinal
  have hfree : final ∉ fs1 := chooseFinalName_not_mem fs1 t
  have htemp1 : temp ∈ fs1 := mem_addFile.mpr (Or.inr rfl)
  have hne : final ≠ temp := fun hcontra => hfree (hcontra ▸ htemp1)
  have hnotm : final ∉ removeFile fs1 temp :=
    fun hm => hfree (mem_removeFile.mp hm).1
  have hadd : addFile (removeFile fs1 temp) final
      = removeFile fs1 temp ++ [final] := by
    unfold addFile
    rw [if_neg hnotm]
  refine ⟨final, rfl, h.1, hfree, ?_, ?_, ?_⟩
  · rw [worker, h.2]
    simp only
    rw [hadd, List.count_append]
    have h0 : (removeFile fs1 temp).count final = 0 :=
      List.count_eq_zero.mpr hnotm
    rw [h0]
    simp
  · rw [worker, h.2]
    simp only
    intro hmem
    rcases mem_addFile.mp hmem with hm | hm
    · exact not_mem_removeFile fs1 temp hm
    · exact hne hm.symm
  · obtain ⟨m, hm1, hm2, hm3⟩ := chooseFinalName_spec fs1 t
    exact ⟨m, hm1, fun j hj => hm3 j hj⟩

theorem C7_witness :
    (1 : Nat) ≤ 1 ∧ (1 : Nat) ≤ 0 + 2 ∧
    ((fun _ => specAlwaysOk) 1).renderOk = true ∧
    ∃ final,
      final = chooseFinalName
          (addFile (if 1 = 1 then ["Report.pdf"] else removeFile ["Report.pdf"] "t.pdf") "t.pdf")
          (sanitize_filename (get_page_title ((fun _ => specAlwaysOk) 1).titleCalls)) ∧
      (worker "u" "t.pdf" 0 (fun _ => specAlwaysOk) ["Report.pdf"]).events
        = [⟨EvStatus.ok, "u", final⟩] ∧
      final ∉ addFile (if 1 = 1 then ["Report.pdf"] else removeFile ["Report.pdf"] "t.pdf") "t.pdf" ∧
      (worker "u" "t.pdf" 0 (fun _ => specAlwaysOk) ["Report.pdf"]).fs.count final = 1 ∧
      "t.pdf" ∉ (worker "u" "t.pdf" 0 (fun _ => specAlwaysOk) ["Report.pdf"]).fs ∧
      (∃ m, final = candidate
          (sanitize_filename (get_page_title ((fun _ => specAlwaysOk) 1).titleCalls)) m ∧
        ∀ j, j < m →
          candidate (sanitize_filename (get_page_title ((fun _ => specAlwaysOk) 1).titleCalls)) j
            ∈ addFile (if 1 = 1 then ["Report.pdf"] else removeFile ["Report.pdf"] "t.pdf") "t.pdf") :=
  ⟨by decide, by decide, rfl,
    C7_success_unique_artifact "u" "t.pdf" 0 (fun _ => specAlwaysOk) ["Report.pdf"] 1
      (by decide) (by decide) rfl (fun j h1 h2 => absurd (by omega : j = 0) (by omega))⟩

/-- Claim C3 as stated: the permit would be held continuously from the
first acquisition to the terminal event, so a worker could never be
back in the pre-admission phase for an attempt number above 1. -/
def permitHeldAcrossRetries : Prop :=
  ∀ (R : Nat) (mc : Int) (n : Nat) (st : SchedState),
    SchedReach R (initState mc n) st →
    ∀ l r k, st.workers = l ++ Phase.ready k :: r → k = 1

/-- C3, counterexample: with one worker, concurrency 1 and retry limit
1, the scheduler reaches a state in which the worker is awaiting
admission for attempt 2 while the semaphore is back at its full size 1:
the permit was released after the backoff of failed attempt 1 and must
be re-acquired for attempt 2, contradicting the claim. -/
theorem C3_counterexample :
    (SchedReach 1 (initState 1 1) ⟨[Phase.ready 2], 1⟩ ∧
      effConc 1 = 1) ∧ ¬ permitHeldAcrossRetries := by
  have hreach : SchedReach 1 (initState 1 1) ⟨[Phase.ready 2], 1⟩ := by
    have s0 : SchedReach 1 (initState 1 1) (initState 1 1) := SchedReach.refl
    have s1 := SchedReach.tail s0 (SchedStep.acquire [] [] 1 0)
    have s2 := SchedReach.tail s1 (SchedStep.failRetry [] [] 1 0 (by omega))
    exact SchedReach.tail s2 (SchedStep.wake [] [] 1 0)
  refine ⟨⟨hreach, rfl⟩, ?_⟩
  intro hclaim
  have := hclaim 1 1 1 ⟨[Phase.ready 2], 1⟩ hreach [] [] 2 rfl
  omega

/-- C3, amended: a task acquires the permit at the start of each
attempt and holds it across the stages and the backoff sleep of that
attempt (occupied slots and free permits always add up to the
semaphore size, a backoff-sleeping worker counting as occupying); the
permit is released only when a worker leaves its attempt sequence
terminally, or between attempts — after the backoff sleep completes
and before the next attempt is admitted. -/
theorem C3_permit_per_attempt :
    (∀ (R : Nat) (s s2 : SchedState), SchedStep R s s2 → s.sem < s2.sem →
      (∃ l r k, s.workers = l ++ Phase.running k :: r ∧
        s2.workers = l ++ Phase.done :: r) ∨
      (∃ l r k, s.workers = l ++ Phase.sleeping k :: r ∧
        s2.workers = l ++ Phase.ready (k + 1) :: r)) ∧
    (∀ (R : Nat) (mc : Int) (n : Nat) (st : SchedState),
      SchedReach R (initState mc n) st →
      heldCount st + st.sem = effConc mc) ∧
    (∀ k, holdsPermit (Phase.sleeping k) = true ∧
      holdsPermit (Phase.running k) = true ∧
      holdsPermit (Phase.ready k) = false) := by
  refine ⟨?_, fun R mc n st h => sched_invariant R mc n st h,
    fun k => ⟨rfl, rfl, rfl⟩⟩
  intro R s s2 hstep hrel
  cases hstep with
  | acquire l r k sv => simp at hrel
  | succeed l r k sv => exact Or.inl ⟨l, r, k, rfl, rfl⟩
  | failRetry l r k sv hk => simp at hrel
  | wake l r k sv => exact Or.inr ⟨l, r, k, rfl, rfl⟩
  | failFinal l r k sv hk => exact Or.inl ⟨l, r, k, rfl, rfl⟩

theorem C3_permit_per_attempt_witness :
    (∃ l r k, ([Phase.running 1] : List Phase) = l ++ Phase.running k :: r ∧
      ([Phase.done] : List Phase) = l ++ Phase.done :: r) ∨
    (∃ l r k, ([Phase.running 1] : List Phase) = l ++ Phase.sleeping k :: r ∧
      ([Phase.done] : List Phase) = l ++ Phase.ready (k + 1) :: r) :=
  C3_permit_per_attempt.1 0 ⟨[Phase.running 1], 0⟩ ⟨[Phase.done], 1⟩
    (SchedStep.succeed [] [] 1 0) (by decide)

/-- C8: in every state reachable under any scheduling of the
cooperative scheduler with a positive configured concurrency `mc`, the
number of workers past the admission point (inside the
semaphore-guarded region, whether executing stages or sleeping in
backoff) never exceeds `mc`. -/
theorem C8_concurrency_bound (R : Nat) (mc : Int) (n : Nat)
    (st : SchedState) (hmc : 1 ≤ mc)
    (hr : SchedReach R (initState mc n) st) :
    heldCount st ≤ mc.toNat := by
  have h := sched_invariant R mc n st hr
  have he : effConc mc = mc.toNat := by
    unfold effConc
    rw [max_eq_right hmc]
  omega

theorem C8_witness :
    (1 : Int) ≤ 2 ∧
    heldCount ⟨[Phase.running 1, Phase.ready 1], 1⟩ ≤ (2 : Int).toNat :=
  ⟨by decide,
    C8_concurrency_bound 0 2 2 ⟨[Phase.running 1, Phase.ready 1], 1⟩ (by decide)
      (SchedReach.tail SchedReach.refl
        (SchedStep.acquire [] [Phase.ready 1] 1 1))⟩

/-- C9: the scheduler clamps the configured concurrency at 1
(`asyncio.Semaphore(max(1, max_concurrency))`), so a run configured
with `max_concurrency <= 0` starts in exactly the state of a run with
concurrency 1 and can still admit work whenever there is any. -/
theorem C9_clamped_concurrency (mc : Int) (n : Nat) (R : Nat)
    (hmc : mc ≤ 0) :
    effConc mc = 1 ∧ initState mc n = initState 1 n ∧
    (∀ m, n = m + 1 → ∃ st, SchedStep R (initState mc n) st) := by
  have h1 : effConc mc = 1 := by
    unfold effConc
    rw [max_eq_left (by omega : mc ≤ 1)]
    rfl
  refine ⟨h1, ?_, ?_⟩
  · unfold initState
    rw [h1]
    rfl
  · intro m hm
    subst hm
    refine ⟨⟨Phase.running 1 :: List.replicate m (Phase.ready 1), 0⟩, ?_⟩
    have h2 : initState mc (m + 1)
        = ⟨Phase.ready 1 :: List.replicate m (Phase.ready 1), 0 + 1⟩ := by
      unfold initState
      rw [h1]
      rfl
    rw [h2]
    exact SchedStep.acquire [] (List.replicate m (Phase.ready 1)) 1 0

theorem C9_witness :
    effConc (-3) = 1 ∧ initState (-3) 4 = initState 1 4 ∧
    (∀ m, 4 = m + 1 → ∃ st, SchedStep 0 (initState (-3) 4) st) :=
  C9_clamped_concurrency (-3) 4 0 (by decide)

/-- Boolean view of a render outcome, as the `try/except` in `_worker`
sees it. -/
def renderOkBool (ro : RenderOut) : Bool :=
  match ro.result with
  | Except.ok _ => true
  | Except.error _ => false

/-- C4: when the engine calls themselves succeed, an extraction that
throws inside `rd.parse()`, returns null, or returns empty content
(`truthyContent ... = none` covers all three) is absorbed: the
extracting stage returns normally, the whole render returns ok having
printed the blank fallback document, and the enclosing worker attempt
emits an ok event with no backoff sleep and no retry. -/
theorem C4_extraction_errors_degrade (src : SourceCalls) (sb : SandboxCalls)
    (hsp : src.newPageOk = true) (hg : src.gotoOk = true)
    (hi : src.idle ≠ WaitRes.err) (hc : src.contentOk = true)
    (hnp : sb.newPageOk = true) (hsb : sb.setBlankOk = true)
    (has2 : sb.addScriptOk = true) (hev : sb.evalOk = true)
    (hpdf : sb.pdfOk = true)
    (habsent : truthyContent (bridgeValue sb) = none) :
    (readerize_in_sandbox sb).result = Except.ok () ∧
    (readerize_in_sandbox sb).isArticle = false ∧
    (render_url_to_pdf_async src sb).result = Except.ok () ∧
    (render_url_to_pdf_async src sb).pdfWritten = true ∧
    (render_url_to_pdf_async src sb).printedEmpty = true ∧
    renderOkBool (render_url_to_pdf_async src sb) = true ∧
    (∀ url temp R fs (spec : Nat → AttemptSpec),
      (spec 1).renderOk = renderOkBool (render_url_to_pdf_async src sb) →
      (worker url temp R spec fs).sleeps = [] ∧
      ∃ name, (worker url temp R spec fs).events = [⟨EvStatus.ok, url, name⟩]) := by
  have hro : readerize_in_sandbox sb = ⟨Except.ok (), true, false⟩ := by
    unfold readerize_in_sandbox
    rw [hnp, hsb, has2, hev, habsent]
    rfl
  have hsrc : read_source_html src = Except.ok src.html := by
    unfold read_source_html
    rw [hg, hc]
    cases hidle : src.idle
    · rfl
    · rfl
    · exact absurd hidle hi
  have hr : render_url_to_pdf_async src sb
      = ⟨Except.ok (), false, false, true, true⟩ := by
    unfold render_url_to_pdf_async
    rw [hsp, hsrc, hro, hpdf]
    rfl
  refine ⟨by rw [hro], by rw [hro], by rw [hr], by rw [hr], by rw [hr],
    by rw [hr]; rfl, ?_⟩
  intro url temp R fs spec hspec
  rw [hr] at hspec
  have hs1 : (spec (0 + 1)).renderOk = true := hspec
  constructor
  · rw [worker, workerLoop_success_step url temp R spec fs 0 hs1]
  · rw [worker, workerLoop_success_step url temp R spec fs 0 hs1]
    exact ⟨_, rfl⟩

theorem C4_witness :
    truthyContent (bridgeValue
      ⟨true, true, true, true, Except.error "rd.parse threw", true, true,
        WaitRes.done, true⟩) = none ∧
    (render_url_to_pdf_async ⟨true, true, WaitRes.done, true, "<p>x</p>"⟩
      ⟨true, true, true, true, Except.error "rd.parse threw", true, true,
        WaitRes.done, true⟩).result = Except.ok () ∧
    (render_url_to_pdf_async ⟨true, true, WaitRes.done, true, "<p>x</p>"⟩
      ⟨true, true, true, true, Except.error "rd.parse threw", true, true,
        WaitRes.done, true⟩).printedEmpty = true :=
  ⟨rfl,
    (C4_extraction_errors_degrade ⟨true, true, WaitRes.done, true, "<p>x</p>"⟩
      ⟨true, true, true, true, Except.error "rd.parse threw", true, true,
        WaitRes.done, true⟩
      rfl rfl (by decide) rfl rfl rfl rfl rfl rfl rfl).2.2.1,
    (C4_extraction_errors_degrade ⟨true, true, WaitRes.done, true, "<p>x</p>"⟩
      ⟨true, true, true, true, Except.error "rd.parse threw", true, true,
        WaitRes.done, true⟩
      rfl rfl (by decide) rfl rfl rfl rfl rfl rfl rfl).2.2.2.2.1⟩

/-- Source-page oracle in which every engine call succeeds. -/
def srcOkCalls : SourceCalls := ⟨true, true, WaitRes.done, true, "<p>x</p>"⟩

/-- Sandbox oracle in which `ctx.new_page()` and `set_content` succeed
and `add_script_tag` then raises. -/
def sbScriptRaises : SandboxCalls :=
  ⟨true, true, false, true, Except.ok none, true, true, WaitRes.done, true⟩

/-- C5: evaluating `render_url_to_pdf_async` at an attempt whose
`add_script_tag` call raises after the sandbox page was opened shows
the extracting stage propagating the error with the sandbox page handle
still open — `_readerize_in_sandbox` has no `try/finally` around the
page it creates, unlike the sync variant in `browser.py` — refuting
the claim that no execution path leaves a page handle open. -/
theorem C5_sandbox_page_leak :
    (render_url_to_pdf_async srcOkCalls sbScriptRaises).result
        = Except.error "add_script_tag" ∧
    (render_url_to_pdf_async srcOkCalls sbScriptRaises).procOpen = true ∧
    ¬ ∀ (src : SourceCalls) (sb : SandboxCalls),
        (render_url_to_pdf_async src sb).procOpen = false := by
  refine ⟨rfl, rfl, ?_⟩
  intro h
  have := h srcOkCalls sbScriptRaises
  simp only [show (render_url_to_pdf_async srcOkCalls sbScriptRaises).procOpen
    = true from rfl] at this
  exact Bool.noConfusion this

/-- C10, counterexample: a fully successful title read returning the
whitespace-only string " " makes `get_page_title` return the empty
string (Python: `" ".strip()`), not "untitled" as claimed. -/
theorem C10_counterexample :
    get_page_title ⟨true, true, true, true, " "⟩ = "" ∧
    get_page_title ⟨true, true, true, true, " "⟩ ≠ "untitled" := by
  refine ⟨?_, ?_⟩
  · decide
  · decide

/-- C10, amended: `get_page_title` is total (the whole body is wrapped
in `try/except Exception`); any failing call yields "untitled", a
successful read of an empty title yields "untitled", and a successful
read of a non-empty title yields the stripped title — which is the
empty string, not "untitled", when the title was whitespace-only
(`sanitize_filename` later maps it to "untitled").  A failing title
visit cannot fail the enclosing attempt: a successful render still
emits an ok event whatever the title oracle did. -/
theorem C10_title_never_raises (b : TitleCalls) :
    ((b.newPageOk && b.gotoOk && b.titleOk && b.closeOk) = false →
      get_page_title b = "untitled") ∧
    ((b.newPageOk && b.gotoOk && b.titleOk && b.closeOk) = true →
      b.titleVal = "" → get_page_title b = "untitled") ∧
    ((b.newPageOk && b.gotoOk && b.titleOk && b.closeOk) = true →
      b.titleVal ≠ "" → get_page_title b = pyStrip b.titleVal) ∧
    (sanitize_filename "" = "untitled") ∧
    (∀ url temp R fs (spec : Nat → AttemptSpec),
      (spec 1).renderOk = true → (spec 1).titleCalls = b →
      ∃ name, (worker url temp R spec fs).events = [⟨EvStatus.ok, url, name⟩]) := by
  refine ⟨?_, ?_, ?_, by decide, ?_⟩
  · intro hfalse
    unfold get_page_title
    rw [hfalse]
    rfl
  · intro htrue hempty
    unfold get_page_title
    rw [htrue, if_pos rfl, if_pos hempty]
  · intro htrue hne
    unfold get_page_title
    rw [htrue, if_pos rfl, if_neg hne]
  · intro url temp R fs spec hs1 _
    rw [worker, workerLoop_success_step url temp R spec fs 0 hs1]
    exact ⟨_, rfl⟩

theorem C10_witness :
    ((false : Bool) && true && true && true) = false ∧
    get_page_title ⟨false, true, true, true, "Anything"⟩ = "untitled" :=
  ⟨by decide,
    (C10_title_never_raises ⟨false, true, true, true, "Anything"⟩).1 rfl⟩

end Reader2Pdf
